import Mathlib

/-!
Verification of the MoinMoin nowiki expansion engine
(`MoinMoin/converter/nowiki.py`).

The engine walks an internal document tree, finds every element tagged
`nowiki` (a raw-block placeholder holding a marker length, a directive
line such as `#!highlight python`, and the raw body text), and replaces
the element's children with expanded content: a highlighted code block,
a CSV table, a parsed sub-document, or a diagnostic followed by a
plain-text fallback.

The document tree, the directive parser, the legacy-alias rewrite, the
dispatch, the error reporter and the tree walker are translated directly
from the source.  External collaborators that are not part of the
sources (the pygments lexer registry and renderer, the six embedded
sub-parsers, the `_table.py` table builder) are modelled from the
specification as abstract parameters or explicit definitions marked
"Modelled from the spec".

Python's in-place mutation is rendered functionally: `handle_nowiki`
returns the replacement children of a placeholder, and the traversal of
`Converter.__call__` / `Converter.recurse` is the fuel-indexed
`expandFuel`, which processes a node and then recurses into its (already
replaced) children, exactly as the generator in `recurse` resumes over
the mutated child list.  Exhausted fuel models non-termination /
`RecursionError`; the other error constructors model the exceptions the
Python code can raise.
-/

/-- A node of the internal Moin document tree (emeraldtree element or
text run): an element has a tag, an attribute list and ordered
children. -/
inductive Node where
  | text (s : String)
  | elem (tag : String) (attrib : List (String × String)) (children : List Node)

/-- Errors the engine can signal: exhausted recursion fuel (models
non-termination of the Python traversal), the `ValueError` from
unpacking `elem._children` into three variables, `IndexError` /
`AttributeError` from reading the directive child, and an uncaught
lexer-resolution failure. -/
inductive EErr where
  | fuelOut
  | unpackError
  | indexError
  | attrError
  | lexerNotFound

/-- Whitespace characters removed by Python's `str.rstrip()` (ASCII). -/
def pySpace (ch : Char) : Bool :=
  ch == ' ' || ch == '\t' || ch == '\n' || ch == '\x0b' || ch == '\x0c' || ch == '\r'

/-- Python `str.rstrip()`: remove trailing whitespace. -/
def rstrip (s : String) : String :=
  String.mk ((s.data.reverse.dropWhile pySpace).reverse)

/-- Python `str.split(' ', 1)` on a character list: split at the first
space, the remainder absent when there is no space. -/
def splitFirst : List Char → List Char × Option (List Char)
  | [] => ([], none)
  | ch :: rest =>
    if ch = ' ' then ([], some rest)
    else
      let p := splitFirst rest
      (ch :: p.1, p.2)

/-- Directive parsing on the character list of the right-trimmed
directive line, translated from `handle_nowiki` lines 47-52: when the
line starts with `#!` and is longer than two characters, split the
remainder at the first space into `nowiki_name` and `nowiki_args_old`;
otherwise both are `None`. -/
def parseDirectiveCore (l : List Char) : Option String × Option String :=
  match l with
  | '#' :: '!' :: c0 :: rest =>
    let p := splitFirst (c0 :: rest)
    (some (String.mk p.1), p.2.map String.mk)
  | _ => (none, none)

/-- Directive parsing of the right-trimmed directive line. -/
def parseDirective (s : String) : Option String × Option String :=
  parseDirectiveCore s.data

/-- The fixed legacy format set of `handle_nowiki` line 57. -/
def legacyFormats : List String :=
  ["diff", "cplusplus", "python", "java", "pascal", "irc"]

/-- Directive parsing followed by the legacy alias rewrite of
`handle_nowiki` lines 57-60: a legacy name becomes the highlight
sub-argument and the name becomes `highlight`. -/
def resolveDirective (s : String) : Option String × Option String :=
  let p := parseDirective s
  match p.1 with
  | some nm => if nm ∈ legacyFormats then (some "highlight", some nm) else (some nm, p.2)
  | none => (none, p.2)

/-- Python `' '.join(...)` over the characters of a string, as applied
by `invalid_args` (line 37) to the directive string: the characters
separated by single spaces. -/
def joinChars : List Char → List Char
  | [] => []
  | [c0] => [c0]
  | c0 :: c1 :: rest => c0 :: ' ' :: joinChars (c1 :: rest)

/-- Python `' '.join(nowiki_args)` where `nowiki_args` is a string. -/
def spaceJoin (s : String) : String :=
  String.mk (joinChars s.data)

/-- Python `str.replace('/', ' ')` (single-character replacement). -/
def replaceSlash (s : String) : String :=
  String.mk (s.data.map (fun ch => if ch = '/' then ' ' else ch))

/-- Helper of the splitter: if `sep` is a leading run of `l`, the rest
of `l`, else nothing. -/
def dropSep : List Char → List Char → Option (List Char)
  | [], l => some l
  | _ :: _, [] => none
  | a :: as, b :: bs => if a = b then dropSep as bs else none

/-- Python `str.split(sep)` with a non-empty separator, on character
lists, with explicit structural fuel (the list length always
suffices). -/
def splitSepAux (sep : List Char) : Nat → List Char → List (List Char)
  | _, [] => [[]]
  | 0, l => [l]
  | fuel + 1, ch :: rest =>
    match dropSep sep (ch :: rest) with
    | some r => [] :: splitSepAux sep fuel r
    | none =>
      match splitSepAux sep fuel rest with
      | [] => [[ch]]
      | g :: gs => (ch :: g) :: gs

/-- Python `str.split(sep)` with a non-empty separator. -/
def splitSep (sep l : List Char) : List (List Char) :=
  splitSepAux sep l.length l

/-- The external collaborators of the engine, at their interface
boundary (specification section 6): the pygments lexer registry and
renderer, and the six embedded-markup sub-parsers.  Lexers are
identified by a string; `highlight` renders tokenized text into the
children of a code block; each sub-parser maps the raw body (plus a
passed-through argument where its convention has one) to a sub-tree. -/
structure Collab where
  get_lexer_by_name : Option String → Option String
  get_lexer_for_mimetype : Option String → Option String
  highlight : String → String → List Node
  parse_moinwiki : String → Option String → Node
  parse_creole : String → Option String → Node
  parse_rst : String → Node
  parse_docbook : String → Node
  parse_markdown : String → Node
  parse_mediawiki : String → Option String → Node

/-- The localized template of `invalid_args` (line 37) applied to
Python `' '.join(nowiki_args)` of the directive string. -/
def invalid_args_message (nowiki_args : String) : String :=
  "Defaulting to plain text due to invalid arguments: \"" ++ spaceJoin nowiki_args ++ "\""

/-- The admonition node built by `Converter.invalid_args` (lines 35-39):
an error-classed div holding a paragraph with the message. -/
def invalid_args (nowiki_args : String) : Node :=
  .elem "div" [("class", "error")] [.elem "p" [] [.text (invalid_args_message nowiki_args)]]

/-- The highlighted code block: a blockcode element with class
`highlight` whose children are the rendered tokens. -/
def blockcodeFor (c : Collab) (lexer content : String) : Node :=
  .elem "blockcode" [("class", "highlight")] (c.highlight lexer content)

/-- Modelled from the spec: a table row of the Separator/Table Builder,
one cell per field. -/
def mkTableRow (cells : List String) : Node :=
  .elem "table-row" [] (cells.map (fun s => .elem "table-cell" [] [.text s]))

/-- Modelled from the spec: `TableMixin.build_dom_table` of `_table.py`
(not among the sources).  Per specification section 4.4 it produces a
table node tagged with the given CSS classes, holding one header-row
subtree and one body subtree with one row per body line; rows keep
their own cell counts. -/
def build_dom_table (rows : List (List String)) (head : List String) (cls : String) : Node :=
  .elem "table" [("class", cls)]
    [.elem "table-header" [] [mkTableRow head],
     .elem "table-body" [] (rows.map mkTableRow)]

/-- Reading `nowiki_args[0].rstrip()`'s subject (line 45): the first
item of the placeholder's second child.  An element yields its first
child, which must be a text run; Python indexing of a bare string
yields its first character. -/
def firstItemString : Node → Except EErr String
  | .elem _ _ (.text s :: _) => .ok s
  | .elem _ _ (.elem _ _ _ :: _) => .error .attrError
  | .elem _ _ [] => .error .indexError
  | .text s =>
    match s.data with
    | [] => .error .indexError
    | c0 :: _ => .ok (String.mk [c0])

/-- Translation of `Converter.handle_nowiki` (lines 41-144) from the
source: given the placeholder's children, produce the replacement
children (Python clears the element and appends these).  The element's
tag and attributes are untouched by the source, so they are not
parameters.  Unpacking, directive parsing, the legacy alias rewrite,
the highlight / csv / sub-parser dispatch and the invalid-argument
fallback follow the code line by line. -/
def handle_nowiki (c : Collab) (children : List Node) : Except EErr (List Node) :=
  match children with
  | [_, argsChild, contentChild] =>
    match firstItemString argsChild with
    | .error e => .error e
    | .ok raw =>
      let nowiki_args := rstrip raw
      let d := resolveDirective nowiki_args
      let nowiki_name := d.1
      let nowiki_args_old := d.2
      match contentChild with
      | .elem _ _ _ => .error .attrError
      | .text content =>
        if nowiki_name = some "highlight" then
          match c.get_lexer_by_name nowiki_args_old with
          | some lexer => .ok [blockcodeFor c lexer content]
          | none =>
            match c.get_lexer_for_mimetype nowiki_args_old with
            | some lexer => .ok [blockcodeFor c lexer content]
            | none =>
              match c.get_lexer_by_name (some "text") with
              | some lexer => .ok [invalid_args nowiki_args, blockcodeFor c lexer content]
              | none => .error .lexerNotFound
        else if nowiki_name = some "csv" ∨ nowiki_name = some "text/csv" then
          let sep : List Char :=
            match nowiki_args_old with
            | some s => if s.data = [] then [';'] else s.data
            | none => [';']
          let lines := splitSep ['\n'] content.data
          let head := (splitSep sep (lines.headD [])).map String.mk
          let rows := (lines.drop 1).map (fun x => (splitSep sep x).map String.mk)
          .ok [build_dom_table rows head "moin-csv-table moin-sortable"]
        else if nowiki_name = some "wiki" ∨ nowiki_name = some "text/x.moin.wiki" then
          let clsArg : Option String :=
            match nowiki_args_old with
            | some s => if s.data = [] then none else some (replaceSlash s)
            | none => none
          .ok [.elem "page" [] [c.parse_moinwiki content clsArg]]
        else if nowiki_name = some "creole" ∨ nowiki_name = some "text/x.moin.creole" then
          .ok [.elem "page" [] [c.parse_creole content nowiki_args_old]]
        else if nowiki_name = some "rst" ∨ nowiki_name = some "text/x-rst" then
          .ok [c.parse_rst content]
        else if nowiki_name = some "docbook" ∨ nowiki_name = some "application/docbook+xml" then
          .ok [c.parse_docbook content]
        else if nowiki_name = some "markdown" ∨ nowiki_name = some "text/x-markdown" then
          .ok [c.parse_markdown content]
        else if nowiki_name = some "mediawiki" ∨ nowiki_name = some "text/x-mediawiki" then
          .ok [c.parse_mediawiki content nowiki_args_old]
        else
          match c.get_lexer_by_name (some "text") with
          | some lexer => .ok [invalid_args nowiki_args, blockcodeFor c lexer content]
          | none => .error .lexerNotFound
  | _ => .error .unpackError

/-- Expansion of a list of children by a given node expander, in order,
stopping at the first error (the traversal of `recurse` over the
current child list, errors propagating out of `__call__`). -/
def expandChildren (rec : Node → Except EErr Node) : List Node → Except EErr (List Node)
  | [] => .ok []
  | n :: ns =>
    match rec n with
    | .error e => .error e
    | .ok r =>
      match expandChildren rec ns with
      | .error e => .error e
      | .ok rs => .ok (r :: rs)

/-- Translation of `Converter.__call__` with `Converter.recurse`
(lines 146-158), fuel-indexed: visit a node; when it is tagged `nowiki`, replace its
children via `handle_nowiki` first (the caller of the generator mutates
the element before the generator resumes); then traverse the current
children.  Text runs are not elements and are left alone.  Fuel
decreases per tree level; exhaustion models a traversal that would not
terminate (or exceed Python's recursion limit). -/
def expandFuel (c : Collab) : Nat → Node → Except EErr Node
  | 0, _ => .error .fuelOut
  | _ + 1, .text s => .ok (.text s)
  | fuel + 1, .elem tag a ch =>
    match (if tag = "nowiki" then handle_nowiki c ch else .ok ch) with
    | .error e => .error e
    | .ok ch1 =>
      match expandChildren (expandFuel c fuel) ch1 with
      | .error e => .error e
      | .ok ch2 => .ok (.elem tag a ch2)

/-- The children of a node (empty for a text run). -/
def childrenOf : Node → List Node
  | .text _ => []
  | .elem _ _ ch => ch

/-- Whether an `Except` result is a success. -/
def isOkE {α : Type} : Except EErr α → Bool
  | .ok _ => true
  | .error _ => false

mutual
/-- Whether some node of the tree carries the `nowiki` tag. -/
def containsNowikiTag : Node → Bool
  | .text _ => false
  | .elem t _ ch => t == "nowiki" || containsNowikiTagL ch
/-- List form of `containsNowikiTag`. -/
def containsNowikiTagL : List Node → Bool
  | [] => false
  | n :: ns => containsNowikiTag n || containsNowikiTagL ns
end

mutual
/-- Whether some node of the tree is a raw, unexpanded placeholder: a
`nowiki`-tagged element still holding the three placeholder children
(marker length, directive, body). -/
def containsRaw : Node → Bool
  | .text _ => false
  | .elem t _ ch => (t == "nowiki" && ch.length == 3) || containsRawL ch
/-- List form of `containsRaw`. -/
def containsRawL : List Node → Bool
  | [] => false
  | n :: ns => containsRaw n || containsRawL ns
end

mutual
/-- Every `nowiki`-tagged node of the tree has handled (replacement)
children: at most two of them, as every branch of `handle_nowiki`
produces one or two nodes. -/
def nowikiHandled : Node → Bool
  | .text _ => true
  | .elem t _ ch => (t != "nowiki" || decide (ch.length ≤ 2)) && nowikiHandledL ch
/-- List form of `nowikiHandled`. -/
def nowikiHandledL : List Node → Bool
  | [] => true
  | n :: ns => nowikiHandled n && nowikiHandledL ns
end

mutual
/-- The concatenated text runs of a tree, in document order. -/
def textContent : Node → String
  | .text s => s
  | .elem _ _ ch => textContentL ch
/-- List form of `textContent`. -/
def textContentL : List Node → String
  | [] => ""
  | n :: ns => textContent n ++ textContentL ns
end

/-- A concrete collaborator instance for evaluating the engine: the
lexer registry resolves `text` and `python` by name and nothing by
mimetype, the renderer emits the raw text as a single run, and each
sub-parser wraps the body in a `body` element. -/
def cDefault : Collab where
  get_lexer_by_name := fun o =>
    match o with
    | some "text" => some "text"
    | some "python" => some "python"
    | _ => none
  get_lexer_for_mimetype := fun _ => none
  highlight := fun _ s => [.text s]
  parse_moinwiki := fun s _ => .elem "body" [] [.text s]
  parse_creole := fun s _ => .elem "body" [] [.text s]
  parse_rst := fun s => .elem "body" [] [.text s]
  parse_docbook := fun s => .elem "body" [] [.text s]
  parse_markdown := fun s => .elem "body" [] [.text s]
  parse_mediawiki := fun s _ => .elem "body" [] [.text s]

/-- A placeholder node as the upstream tree builder produces it: marker
length, a one-element sequence holding the directive line, and the raw
body text. -/
def mkPlaceholder (directive body : String) : Node :=
  .elem "nowiki" [] [.text "3", .elem "arguments" [] [.text directive], .text body]

/-- A collaborator whose wiki sub-parser emits a body containing a
nested, unexpanded csv placeholder around the given content, to
exercise re-entrant expansion. -/
def cNest : Collab :=
  { cDefault with parse_moinwiki := fun s _ => .elem "body" [] [mkPlaceholder "#!csv" s] }

example : handle_nowiki cDefault (childrenOf (mkPlaceholder "#!csv" "a;b")) =
    .ok [build_dom_table [] ["a", "b"] "moin-csv-table moin-sortable"] := rfl

example : expandFuel cDefault 10 (.elem "page" [] [mkPlaceholder "#!csv" "a;b"]) =
    .ok (.elem "page" [] [.elem "nowiki" []
      [build_dom_table [] ["a", "b"] "moin-csv-table moin-sortable"]]) := rfl

example : expandFuel cDefault 10 (mkPlaceholder "#!bogus-format" "hello") =
    .ok (.elem "nowiki" [] [invalid_args "#!bogus-format",
      .elem "blockcode" [("class", "highlight")] [.text "hello"]]) := rfl

example : invalid_args_message "#!bogus-format" =
    "Defaulting to plain text due to invalid arguments: \"# ! b o g u s - f o r m a t\"" := by
  decide

example : containsNowikiTag (.elem "page" [] [.elem "nowiki" []
    [build_dom_table [] ["a", "b"] "moin-csv-table moin-sortable"]]) = true := by
  simp [containsNowikiTag, containsNowikiTagL]

example : expandFuel cNest 9 (mkPlaceholder "#!wiki" "p;q") =
    .ok (.elem "nowiki" [] [.elem "page" [] [.elem "body" [] [.elem "nowiki" []
      [build_dom_table [] ["p", "q"] "moin-csv-table moin-sortable"]]]]) := rfl

theorem containsNowikiTagL_false (l : List Node) (h : containsNowikiTagL l = false) :
    ∀ n ∈ l, containsNowikiTag n = false := by
  induction l with
  | nil => intro n hn; cases hn
  | cons a as ih =>
    rw [containsNowikiTagL] at h
    intro n hn
    rcases List.mem_cons.mp hn with rfl | hmem
    · exact (Bool.or_eq_false_iff.mp h).1
    · exact ih (Bool.or_eq_false_iff.mp h).2 n hmem

theorem nowikiHandledL_of_forall (l : List Node) (h : ∀ n ∈ l, nowikiHandled n = true) :
    nowikiHandledL l = true := by
  induction l with
  | nil => rfl
  | cons a as ih =>
    rw [nowikiHandledL]
    rw [h a (by simp), ih (fun n hn => h n (by simp [hn]))]
    rfl

theorem nowikiHandledL_forall (l : List Node) (h : nowikiHandledL l = true) :
    ∀ n ∈ l, nowikiHandled n = true := by
  induction l with
  | nil => intro n hn; cases hn
  | cons a as ih =>
    rw [nowikiHandledL] at h
    rw [Bool.and_eq_true] at h
    intro n hn
    rcases List.mem_cons.mp hn with rfl | hmem
    · exact h.1
    · exact ih h.2 n hmem

theorem containsRawL_false_of (l : List Node) (h : ∀ n ∈ l, containsRaw n = false) :
    containsRawL l = false := by
  induction l with
  | nil => rfl
  | cons a as ih =>
    rw [containsRawL]
    rw [h a (by simp), ih (fun n hn => h n (by simp [hn]))]
    rfl

theorem handle_nowiki_length (c : Collab) (ch out : List Node)
    (h : handle_nowiki c ch = .ok out) : out.length ≤ 2 := by
  unfold handle_nowiki at h
  dsimp only at h
  repeat' split at h
  all_goals cases h
  all_goals simp

theorem handle_nowiki_unpack (c : Collab) (ch : List Node)
    (h : ch.length ≠ 3) : handle_nowiki c ch = .error .unpackError := by
  rcases ch with _ | ⟨a, _ | ⟨b, _ | ⟨d, _ | ⟨e, rest⟩⟩⟩⟩
  · rfl
  · rfl
  · rfl
  · exact absurd rfl h
  · rfl

theorem expandChildren_length (rec : Node → Except EErr Node) (l out : List Node)
    (h : expandChildren rec l = .ok out) : out.length = l.length := by
  induction l generalizing out with
  | nil =>
    rw [expandChildren] at h
    injection h with h1
    simp [← h1]
  | cons n ns ih =>
    rw [expandChildren] at h
    rcases hr : rec n with e | r
    · rw [hr] at h; exact absurd h (by simp)
    · rw [hr] at h
      rcases he : expandChildren rec ns with e2 | rs
      · rw [he] at h; exact absurd h (by simp)
      · rw [he] at h
        injection h with h1
        simp [← h1, ih rs he]

theorem expandChildren_preserve (rec : Node → Except EErr Node) (P : Node → Prop)
    (hp : ∀ n r, rec n = .ok r → P r) (l out : List Node)
    (h : expandChildren rec l = .ok out) : ∀ m ∈ out, P m := by
  induction l generalizing out with
  | nil =>
    rw [expandChildren] at h
    injection h with h1
    intro m hm; rw [← h1] at hm; cases hm
  | cons n ns ih =>
    rw [expandChildren] at h
    rcases hr : rec n with e | r
    · rw [hr] at h; exact absurd h (by simp)
    · rw [hr] at h
      rcases he : expandChildren rec ns with e2 | rs
      · rw [he] at h; exact absurd h (by simp)
      · rw [he] at h
        injection h with h1
        intro m hm; rw [← h1] at hm
        rcases List.mem_cons.mp hm with rfl | hmem
        · exact hp n m hr
        · exact ih rs he m hmem

theorem expandChildren_id (rec : Node → Except EErr Node) (l : List Node)
    (h : ∀ n ∈ l, rec n = .ok n) : expandChildren rec l = .ok l := by
  induction l with
  | nil => rfl
  | cons n ns ih =>
    rw [expandChildren]
    rw [h n (by simp), ih (fun m hm => h m (by simp [hm]))]

theorem expandChildren_err (rec : Node → Except EErr Node) (l : List Node)
    (hp : ∀ n ∈ l, containsNowikiTag n = true → isOkE (rec n) = false)
    (hc : containsNowikiTagL l = true) : isOkE (expandChildren rec l) = false := by
  induction l with
  | nil => rw [containsNowikiTagL] at hc; cases hc
  | cons n ns ih =>
    rw [expandChildren]
    rcases hr : rec n with e | r
    · rfl
    · rw [containsNowikiTagL] at hc
      cases hcn : containsNowikiTag n with
      | true =>
        have h1 := hp n (by simp) hcn
        rw [hr] at h1
        exact absurd h1 (by simp [isOkE])
      | false =>
        have hns : containsNowikiTagL ns = true := by
          rw [hcn] at hc; simpa using hc
        have h2 := ih (fun m hm hcm => hp m (by simp [hm]) hcm) hns
        rcases he : expandChildren rec ns with e2 | rs
        · rfl
        · rw [he] at h2; exact absurd h2 (by simp [isOkE])

theorem expandFuel_ok_handled (c : Collab) :
    ∀ (fuel : Nat) (n r : Node), expandFuel c fuel n = .ok r →
      nowikiHandled r = true ∧ containsRaw r = false := by
  intro fuel
  induction fuel with
  | zero => intro n r h; cases h
  | succ fuel ih =>
    intro n r h
    cases n with
    | text s =>
      rw [expandFuel] at h
      cases h
      exact ⟨rfl, rfl⟩
    | elem tag a ch =>
      rw [expandFuel] at h
      rcases h1 : (if tag = "nowiki" then handle_nowiki c ch else .ok ch) with e | ch1
      · rw [h1] at h; dsimp only at h; cases h
      · rw [h1] at h; dsimp only at h
        rcases h2 : expandChildren (expandFuel c fuel) ch1 with e | ch2
        · rw [h2] at h; dsimp only at h; cases h
        · rw [h2] at h; dsimp only at h
          cases h
          have hall : ∀ m ∈ ch2, nowikiHandled m = true ∧ containsRaw m = false :=
            expandChildren_preserve _ _ (fun n r hh => ih n r hh) _ _ h2
          have hlen : ch2.length = ch1.length := expandChildren_length _ _ _ h2
          have hlen2 : tag = "nowiki" → ch2.length ≤ 2 := by
            intro ht
            rw [if_pos ht] at h1
            rw [hlen]
            exact handle_nowiki_length c ch ch1 h1
          constructor
          · rw [nowikiHandled]
            rw [nowikiHandledL_of_forall ch2 (fun m hm => (hall m hm).1)]
            by_cases ht : tag = "nowiki"
            · rw [decide_eq_true (hlen2 ht)]
              simp
            · have hb : (tag != "nowiki") = true := bne_iff_ne.mpr ht
              rw [hb]
              rfl
          · rw [containsRaw]
            rw [containsRawL_false_of ch2 (fun m hm => (hall m hm).2)]
            by_cases ht : tag = "nowiki"
            · have h3 : ch2.length ≠ 3 := by
                have := hlen2 ht
                omega
              have h4 : (ch2.length == 3) = false := by
                simpa using h3
              rw [h4]
              simp
            · have h5 : (tag == "nowiki") = false := by
                simpa using ht
              rw [h5]
              rfl

theorem expandFuel_err_of_contains (c : Collab) :
    ∀ (fuel : Nat) (n : Node), nowikiHandled n = true → containsNowikiTag n = true →
      isOkE (expandFuel c fuel n) = false := by
  intro fuel
  induction fuel with
  | zero => intro n _ _; rfl
  | succ fuel ih =>
    intro n hh hc
    cases n with
    | text s => rw [containsNowikiTag] at hc; cases hc
    | elem tag a ch =>
      rw [expandFuel]
      rw [nowikiHandled, Bool.and_eq_true] at hh
      by_cases ht : tag = "nowiki"
      · have hlen : ch.length ≤ 2 := by
          rcases Bool.or_eq_true_iff.mp hh.1 with hb | hb
          · exact absurd (bne_iff_ne.mp hb) (by simp [ht])
          · exact of_decide_eq_true hb
        rw [if_pos ht, handle_nowiki_unpack c ch (by omega)]
        rfl
      · rw [if_neg ht]
        dsimp only
        have hcl : containsNowikiTagL ch = true := by
          rw [containsNowikiTag] at hc
          rcases Bool.or_eq_true_iff.mp hc with hb | hb
          · exact absurd (eq_of_beq hb) ht
          · exact hb
        have hf : ∀ m ∈ ch, nowikiHandled m = true := nowikiHandledL_forall ch hh.2
        have herr := expandChildren_err (expandFuel c fuel) ch
          (fun m hm hcm => ih m (hf m hm) hcm) hcl
        rcases he : expandChildren (expandFuel c fuel) ch with e2 | rs
        · rfl
        · rw [he] at herr
          exact absurd herr (by simp [isOkE])

theorem expandFuel_id (c : Collab) :
    ∀ (fuel : Nat) (n : Node), containsNowikiTag n = false → sizeOf n < fuel →
      expandFuel c fuel n = .ok n := by
  intro fuel
  induction fuel with
  | zero => intro n _ hs; omega
  | succ fuel ih =>
    intro n hc hs
    cases n with
    | text s => rw [expandFuel]
    | elem tag a ch =>
      rw [containsNowikiTag] at hc
      have ht : ¬tag = "nowiki" := by
        intro hteq
        rw [hteq] at hc
        simp at hc
      have hcl : containsNowikiTagL ch = false := by
        rcases Bool.or_eq_false_iff.mp hc with ⟨_, hb⟩
        exact hb
      rw [expandFuel, if_neg ht]
      dsimp only
      have hsz : sizeOf ch < fuel := by
        have : sizeOf (Node.elem tag a ch) = 1 + sizeOf tag + sizeOf a + sizeOf ch := by
          simp [Node.elem.sizeOf_spec]
        omega
      have hid : ∀ m ∈ ch, expandFuel c fuel m = .ok m := by
        intro m hm
        have h1 : sizeOf m < sizeOf ch := List.sizeOf_lt_of_mem hm
        exact ih m (containsNowikiTagL_false ch hcl m hm) (by omega)
      rw [expandChildren_id (expandFuel c fuel) ch hid]

/-- One step of the traversal at a `nowiki`-tagged element: the children
are replaced via `handle_nowiki` and the replacement children are then
themselves traversed. -/
theorem expandFuel_nowiki_step (c : Collab) (fuel : Nat) (a : List (String × String))
    (ch : List Node) :
    expandFuel c (fuel + 1) (.elem "nowiki" a ch) =
      match handle_nowiki c ch with
      | .error e => .error e
      | .ok ch1 =>
        match expandChildren (expandFuel c fuel) ch1 with
        | .error e => .error e
        | .ok ch2 => .ok (.elem "nowiki" a ch2) := by
  rw [expandFuel, if_pos rfl]

/-- A document tree holding one csv placeholder, and its expansion:
the `nowiki`-tagged element survives with replaced children. -/
def exASTcsv : Node := .elem "page" [] [mkPlaceholder "#!csv" "a;b"]

/-- The expansion of `exASTcsv` under `cDefault`. -/
def exASTcsvExpanded : Node :=
  .elem "page" [] [.elem "nowiki" []
    [build_dom_table [] ["a", "b"] "moin-csv-table moin-sortable"]]

/-- A document tree holding one legacy `python` placeholder, and its
expansion. -/
def exASTpython : Node := .elem "page-root" [] [mkPlaceholder "#!python" "x = 1"]

/-- The expansion of `exASTpython` under `cDefault`. -/
def exASTpythonExpanded : Node :=
  .elem "page-root" [] [.elem "nowiki" []
    [.elem "blockcode" [("class", "highlight")] [.text "x = 1"]]]

/-- C1 (amended): after a completed `expand`, no node anywhere in the
returned tree is still a raw three-child placeholder; the `nowiki` tag
itself however survives on the expanded wrapper elements, so the claim
as stated (zero nodes TAGGED nowiki) fails — see the counterexample. -/
theorem C1_no_raw_placeholder_after_expand (c : Collab) (fuel : Nat) (t r : Node)
    (h : expandFuel c fuel t = .ok r) : containsRaw r = false :=
  (expandFuel_ok_handled c fuel t r h).2

theorem C1_no_raw_placeholder_after_expand_witness :
    expandFuel cDefault 10 exASTcsv = .ok exASTcsvExpanded ∧
    containsRaw exASTcsvExpanded = false :=
  ⟨rfl, C1_no_raw_placeholder_after_expand cDefault 10 exASTcsv exASTcsvExpanded rfl⟩

/-- C1 counterexample: expanding a tree with one csv placeholder
completes, yet the returned tree still contains a node tagged `nowiki`
(`handle_nowiki` replaces only the children, lines 54-55, never the
tag), so a traversal does not find zero nowiki-tagged nodes. -/
theorem C1_counterexample :
    expandFuel cDefault 10 exASTcsv = .ok exASTcsvExpanded ∧
    containsNowikiTag exASTcsvExpanded = true := by
  refine ⟨rfl, ?_⟩
  simp [exASTcsvExpanded, build_dom_table, mkTableRow, containsNowikiTag, containsNowikiTagL]

/-- C2: a single top-level `expand` call on a placeholder first splices
in the handler's replacement children and then traverses exactly those
spliced-in children, so when a sub-parser emits nested placeholders
they are expanded too and no raw placeholder remains at any depth. -/
theorem C2_nested_expansion (c : Collab) (fuel : Nat) (a : List (String × String))
    (ch : List Node) (r : Node)
    (h : expandFuel c (fuel + 1) (.elem "nowiki" a ch) = .ok r) :
    ∃ ch1, handle_nowiki c ch = .ok ch1 ∧
      expandChildren (expandFuel c fuel) ch1 = .ok (childrenOf r) ∧
      containsRaw r = false := by
  have hraw := (expandFuel_ok_handled c (fuel + 1) _ r h).2
  rw [expandFuel, if_pos rfl] at h
  rcases h1 : handle_nowiki c ch with e | ch1
  · rw [h1] at h; dsimp only at h; cases h
  · rw [h1] at h; dsimp only at h
    rcases h2 : expandChildren (expandFuel c fuel) ch1 with e | ch2
    · rw [h2] at h; dsimp only at h; cases h
    · rw [h2] at h; dsimp only at h
      cases h
      exact ⟨ch1, rfl, h2, hraw⟩

/-- The expansion under `cNest` of a wiki placeholder whose sub-parser
output contains a nested csv placeholder: both the outer and the nested
placeholder end up expanded after the one call. -/
def exASTnestExpanded : Node :=
  .elem "nowiki" [] [.elem "page" [] [.elem "body" [] [.elem "nowiki" []
    [build_dom_table [] ["p", "q"] "moin-csv-table moin-sortable"]]]]

theorem C2_nested_expansion_witness :
    ∃ ch1, handle_nowiki cNest (childrenOf (mkPlaceholder "#!wiki" "p;q")) = .ok ch1 ∧
      expandChildren (expandFuel cNest 8) ch1 = .ok (childrenOf exASTnestExpanded) ∧
      containsRaw exASTnestExpanded = false :=
  C2_nested_expansion cNest 8 [] (childrenOf (mkPlaceholder "#!wiki" "p;q"))
    exASTnestExpanded rfl

/-- C5 (amended): a second `expand` call is a no-op only when the
expanded tree contains no `nowiki`-tagged node at all (the input had no
placeholders); whenever a placeholder was expanded, its nowiki-tagged
wrapper survives with at most two children, so the second call fails
with the unpacking error of `handle_nowiki` line 44 (or runs out of
fuel) instead of being a no-op. -/
theorem C5_second_expand (c : Collab) (fuel : Nat) (t r : Node)
    (h : expandFuel c fuel t = .ok r) :
    (containsNowikiTag r = true → ∀ fuel2, isOkE (expandFuel c fuel2 r) = false) ∧
    (containsNowikiTag r = false → ∀ fuel2, sizeOf r < fuel2 → expandFuel c fuel2 r = .ok r) := by
  have hh := (expandFuel_ok_handled c fuel t r h).1
  exact ⟨fun hc fuel2 => expandFuel_err_of_contains c fuel2 r hh hc,
         fun hc fuel2 hs => expandFuel_id c fuel2 r hc hs⟩

theorem C5_second_expand_witness :
    containsNowikiTag exASTpythonExpanded = true ∧
    isOkE (expandFuel cDefault 7 exASTpythonExpanded) = false := by
  refine ⟨?_, (C5_second_expand cDefault 10 exASTpython exASTpythonExpanded rfl).1 ?_ 7⟩
  · simp [exASTpythonExpanded, containsNowikiTag, containsNowikiTagL]
  · simp [exASTpythonExpanded, containsNowikiTag, containsNowikiTagL]

/-- C5 counterexample: on a tree whose one placeholder was expanded by
a first call, the second call is not a no-op: it raises (the expanded
nowiki element no longer has three children to unpack). -/
theorem C5_counterexample :
    expandFuel cDefault 10 exASTpython = .ok exASTpythonExpanded ∧
    isOkE (expandFuel cDefault 10 exASTpythonExpanded) = false :=
  ⟨rfl, rfl⟩

/-- Whether a subsequence of characters occurs contiguously. -/
def startsL : List Char → List Char → Bool
  | [], _ => true
  | _ :: _, [] => false
  | a :: as, b :: bs => a == b && startsL as bs

/-- Whether `needle` occurs contiguously anywhere in the list. -/
def hasSub (needle : List Char) : List Char → Bool
  | [] => startsL needle []
  | b :: bs => startsL needle (b :: bs) || hasSub needle bs

/-- Whether a node is the diagnostic admonition built by
`invalid_args`: a div carrying the `error` class. -/
def isErrorDiv : Node → Bool
  | .elem t a _ => t == "div" && a.contains ("class", "error")
  | .text _ => false

/-- Whether some direct child of a node is the diagnostic admonition. -/
def hasErrorChild : Node → Bool
  | .elem _ _ ch => ch.any isErrorDiv
  | .text _ => false

/-- The unknown-format placeholder of the fallback scenario and its
expansion. -/
def exASTbogus : Node := mkPlaceholder "#!bogus-format" "hello"

/-- The expansion of `exASTbogus` under `cDefault`. -/
def exASTbogusExpanded : Node :=
  .elem "nowiki" [] [invalid_args "#!bogus-format",
    .elem "blockcode" [("class", "highlight")] [.text "hello"]]

/-- C3: evaluation at the failing input.  The directive `#!bogus-format`
with body `hello` yields one diagnostic div followed by the plain-text
block rendering `hello`; but because `invalid_args` (line 37) applies
`' '.join` to the directive STRING, the message space-separates its
characters and never contains the literal argument `#!bogus-format`,
contradicting the stated message content. -/
theorem C3_unknown_format_eval :
    expandFuel cDefault 10 exASTbogus = .ok exASTbogusExpanded ∧
    invalid_args_message "#!bogus-format" =
      "Defaulting to plain text due to invalid arguments: \"# ! b o g u s - f o r m a t\"" ∧
    hasSub "#!bogus-format".data (invalid_args_message "#!bogus-format").data = false ∧
    textContent (.elem "blockcode" [("class", "highlight")] [.text "hello"]) = "hello" := by
  refine ⟨rfl, by decide, by decide, ?_⟩
  simp [textContent, textContentL]

/-- A parent element around an unresolvable-highlight placeholder, and
its expansion: the diagnostic ends up inside the placeholder, not in
the parent. -/
def exASTbadLexer : Node :=
  .elem "body-root" [] [mkPlaceholder "#!highlight no-such-lang" "content"]

/-- The expansion of `exASTbadLexer` under `cDefault`. -/
def exASTbadLexerExpanded : Node :=
  .elem "body-root" [] [.elem "nowiki" [] [invalid_args "#!highlight no-such-lang",
    .elem "blockcode" [("class", "highlight")] [.text "content"]]]

/-- C4 counterexample: after expanding a placeholder whose lexer hint
resolves neither by name nor by mimetype, the parent element has no
diagnostic child - `invalid_args` is called on `elem` itself (line 69),
so the diagnostic sits among the placeholder's own replacement
children, not alongside the placeholder in its parent. -/
theorem C4_counterexample :
    expandFuel cDefault 10 exASTbadLexer = .ok exASTbadLexerExpanded ∧
    hasErrorChild exASTbadLexerExpanded = false ∧
    hasErrorChild (.elem "nowiki" [] [invalid_args "#!highlight no-such-lang",
      .elem "blockcode" [("class", "highlight")] [.text "content"]]) = true := by
  exact ⟨rfl, by decide, by decide⟩

/-- C4 (amended): on double lexer-resolution failure, the diagnostic is
appended to the placeholder element itself (whose children were just
cleared), followed by the body rendered with the guaranteed plain-text
lexer; given that lexer the path produces no error. -/
theorem C4_double_failure (c : Collab) (x1 : Node) (tg : String)
    (a2 : List (String × String)) (rest : List Node) (body lx : String)
    (h1 : c.get_lexer_by_name (some "no-such-lang") = none)
    (h2 : c.get_lexer_for_mimetype (some "no-such-lang") = none)
    (h3 : c.get_lexer_by_name (some "text") = some lx) :
    handle_nowiki c
        [x1, .elem tg a2 (.text "#!highlight no-such-lang" :: rest), .text body] =
      .ok [invalid_args "#!highlight no-such-lang", blockcodeFor c lx body] := by
  unfold handle_nowiki
  dsimp only [firstItemString]
  rw [show resolveDirective (rstrip "#!highlight no-such-lang") =
    (some "highlight", some "no-such-lang") from by decide]
  dsimp only
  rw [if_pos rfl, h1]
  dsimp only
  rw [h2]
  dsimp only
  rw [h3]
  rw [show rstrip "#!highlight no-such-lang" = "#!highlight no-such-lang" from by decide]

theorem C4_double_failure_witness :
    cDefault.get_lexer_by_name (some "no-such-lang") = none ∧
    cDefault.get_lexer_for_mimetype (some "no-such-lang") = none ∧
    cDefault.get_lexer_by_name (some "text") = some "text" ∧
    handle_nowiki cDefault
        [.text "3", .elem "arguments" [] [.text "#!highlight no-such-lang"], .text "content"] =
      .ok [invalid_args "#!highlight no-such-lang", blockcodeFor cDefault "text" "content"] :=
  ⟨rfl, rfl, rfl,
    C4_double_failure cDefault (.text "3") "arguments" [] [] "content" "text" rfl rfl rfl⟩

theorem splitFirst_no_space_append (l t : List Char) (hl : ∀ ch ∈ l, ch ≠ ' ') :
    splitFirst (l ++ ' ' :: t) = (l, some t) := by
  induction l with
  | nil => rw [List.nil_append, splitFirst, if_pos rfl]
  | cons a as ih =>
    rw [List.cons_append, splitFirst, if_neg (hl a (by simp))]
    dsimp only
    rw [ih (fun ch hch => hl ch (by simp [hch]))]

theorem parseDirective_legacy_extra (nm extra : String) (hsp : ∀ ch ∈ nm.data, ch ≠ ' ')
    (hne : nm.data ≠ []) :
    parseDirective ("#!" ++ nm ++ " " ++ extra) = (some nm, some extra) := by
  rcases hnm0 : nm.data with _ | ⟨c0, nmrest⟩
  · exact absurd hnm0 hne
  · have hd : ("#!" ++ nm ++ " " ++ extra).data =
        '#' :: '!' :: c0 :: (nmrest ++ ' ' :: extra.data) := by
      show ((['#', '!'] ++ nm.data) ++ [' ']) ++ extra.data =
        '#' :: '!' :: c0 :: (nmrest ++ ' ' :: extra.data)
      rw [hnm0]
      simp
    unfold parseDirective parseDirectiveCore
    rw [hd]
    show (some (String.mk (splitFirst (c0 :: (nmrest ++ ' ' :: extra.data))).1),
      Option.map String.mk (splitFirst (c0 :: (nmrest ++ ' ' :: extra.data))).2) =
      (some nm, some extra)
    rw [show splitFirst (c0 :: (nmrest ++ ' ' :: extra.data)) = (c0 :: nmrest, some extra.data)
      from splitFirst_no_space_append (c0 :: nmrest) extra.data (hnm0 ▸ hsp)]
    dsimp only [Option.map]
    rw [show String.mk (c0 :: nmrest) = nm from by rw [← hnm0]]

theorem resolveDirective_legacy_extra (nm extra : String) (hsp : ∀ ch ∈ nm.data, ch ≠ ' ')
    (hne : nm.data ≠ []) (hnm : nm ∈ legacyFormats) :
    resolveDirective ("#!" ++ nm ++ " " ++ extra) = (some "highlight", some nm) := by
  unfold resolveDirective
  dsimp only
  rw [parseDirective_legacy_extra nm extra hsp hne]
  dsimp only
  rw [if_pos hnm]

/-- C10: the legacy alias rewrite of lines 57-60 overwrites any
arguments that followed the legacy name: for `#!NAME extra`, the
resolved directive always has `highlight` as its name and the matched
legacy NAME - never `extra` - as its argument, so residual arguments
are discarded before dispatch. -/
theorem C10_legacy_discards_args (nm extra : String) (hnm : nm ∈ legacyFormats) :
    resolveDirective ("#!" ++ nm ++ " " ++ extra) = (some "highlight", some nm) :=
  resolveDirective_legacy_extra nm extra
    (by fin_cases hnm <;> decide) (by fin_cases hnm <;> decide) hnm

theorem C10_legacy_discards_args_witness :
    "python" ∈ legacyFormats ∧
    resolveDirective ("#!" ++ "python" ++ " " ++ "extra-args") = (some "highlight", some "python") :=
  ⟨by decide, C10_legacy_discards_args "python" "extra-args" (by decide)⟩

theorem resolveDirective_rstrip_legacy (nm : String) (hnm : nm ∈ legacyFormats) :
    resolveDirective (rstrip ("#!" ++ nm)) = (some "highlight", some nm) := by
  fin_cases hnm <;> decide

theorem resolveDirective_rstrip_highlight (nm : String) (hnm : nm ∈ legacyFormats) :
    resolveDirective (rstrip ("#!highlight " ++ nm)) = (some "highlight", some nm) := by
  fin_cases hnm <;> decide

theorem handle_nowiki_highlight_ok (c : Collab) (x1 : Node) (tg : String)
    (a2 : List (String × String)) (rest : List Node) (dirline hint body lx : String)
    (hres : resolveDirective (rstrip dirline) = (some "highlight", some hint))
    (hlx : c.get_lexer_by_name (some hint) = some lx) :
    handle_nowiki c [x1, .elem tg a2 (.text dirline :: rest), .text body] =
      .ok [blockcodeFor c lx body] := by
  unfold handle_nowiki
  dsimp only [firstItemString]
  rw [hres]
  dsimp only
  rw [if_pos rfl, hlx]

/-- C6: for a legacy name (one of diff, cplusplus, python, java,
pascal, irc) whose lexer resolves by name, the directives `#!NAME` and
`#!highlight NAME` with the same body expand to identical output
trees: the alias rewrite turns the former into the latter before
dispatch. -/
theorem C6_legacy_alias (c : Collab) (nm lx body : String) (a a2 : List (String × String))
    (x1 : Node) (fuel : Nat) (hnm : nm ∈ legacyFormats)
    (hlx : c.get_lexer_by_name (some nm) = some lx) :
    expandFuel c fuel
        (.elem "nowiki" a [x1, .elem "arguments" a2 [.text ("#!" ++ nm)], .text body]) =
    expandFuel c fuel
        (.elem "nowiki" a [x1, .elem "arguments" a2 [.text ("#!highlight " ++ nm)], .text body]) := by
  cases fuel with
  | zero => rfl
  | succ fuel =>
    rw [expandFuel_nowiki_step, expandFuel_nowiki_step]
    rw [handle_nowiki_highlight_ok c x1 "arguments" a2 [] ("#!" ++ nm) nm body lx
          (resolveDirective_rstrip_legacy nm hnm) hlx,
        handle_nowiki_highlight_ok c x1 "arguments" a2 [] ("#!highlight " ++ nm) nm body lx
          (resolveDirective_rstrip_highlight nm hnm) hlx]

theorem C6_legacy_alias_witness :
    "python" ∈ legacyFormats ∧
    cDefault.get_lexer_by_name (some "python") = some "python" ∧
    expandFuel cDefault 9
        (.elem "nowiki" [] [.text "3", .elem "arguments" [] [.text ("#!" ++ "python")], .text "x = 1"]) =
    expandFuel cDefault 9
        (.elem "nowiki" [] [.text "3", .elem "arguments" [] [.text ("#!highlight " ++ "python")], .text "x = 1"]) :=
  ⟨by decide, rfl,
    C6_legacy_alias cDefault "python" "python" "x = 1" [] [] (.text "3") 9 (by decide) rfl⟩

/-- The Directive Parser contract as the specification words it
(section 4.1): when the line starts with the two-character sentinel and
has content after it, the remainder up to the first space is the format
name and what follows that space the argument string, absent when there
is no space; otherwise both are absent.  Reference formulation for the
refinement check against the source translation `parseDirective`. -/
def parseDirectiveSpec (s : String) : Option String × Option String :=
  let l := s.data
  if l.take 2 = ['#', '!'] ∧ 2 < l.length then
    let rest := l.drop 2
    let nm := rest.takeWhile (fun ch => ch != ' ')
    if nm.length = rest.length then (some (String.mk nm), none)
    else (some (String.mk nm), some (String.mk (rest.drop (nm.length + 1))))
  else (none, none)

theorem splitFirst_spec (l : List Char) :
    splitFirst l = (l.takeWhile (fun ch => ch != ' '),
      if (l.takeWhile (fun ch => ch != ' ')).length = l.length then none
      else some (l.drop ((l.takeWhile (fun ch => ch != ' ')).length + 1))) := by
  induction l with
  | nil => rfl
  | cons ch rest ih =>
    by_cases hch : ch = ' '
    · subst hch
      rw [splitFirst, if_pos rfl]
      simp
    · rw [splitFirst, if_neg hch]
      dsimp only
      rw [ih]
      have ht : (ch != ' ') = true := bne_iff_ne.mpr hch
      simp only [List.takeWhile_cons, ht, if_true, List.length_cons]
      by_cases hl : (rest.takeWhile (fun c2 => c2 != ' ')).length = rest.length
      · rw [if_pos hl, if_pos (by omega)]
      · rw [if_neg hl, if_neg (by omega)]
        rw [List.drop_succ_cons]

theorem parseDirective_eq_spec (s : String) : parseDirective s = parseDirectiveSpec s := by
  unfold parseDirective parseDirectiveCore parseDirectiveSpec
  dsimp only
  split
  · rename_i c0 rest heq
    rw [heq]
    have hcond : (('#' :: '!' :: c0 :: rest).take 2 = ['#', '!'] ∧
        2 < ('#' :: '!' :: c0 :: rest).length) := by
      exact ⟨rfl, by simp⟩
    rw [if_pos hcond]
    rw [splitFirst_spec]
    dsimp only [List.drop]
    by_cases hl : ((c0 :: rest).takeWhile (fun ch => ch != ' ')).length = (c0 :: rest).length
    · rw [if_pos hl, if_pos hl]
      rfl
    · rw [if_neg hl, if_neg hl]
      rfl
  · rename_i x hno
    by_cases hcond : (s.data.take 2 = ['#', '!'] ∧ 2 < s.data.length)
    · exfalso
      rcases hs : s.data with _ | ⟨a, _ | ⟨b, t⟩⟩
      · rw [hs] at hcond; simp at hcond
      · rw [hs] at hcond; simp at hcond
      · rw [hs] at hcond
        obtain ⟨h2, h3⟩ := hcond
        have h2x : [a, b] = ['#', '!'] := h2
        injection h2x with ha h2y
        injection h2y with hb h2z
        subst ha
        subst hb
        rcases t with _ | ⟨c0, rest⟩
        · simp at h3
        · exact hno c0 rest hs
    · rw [if_neg hcond]

theorem resolveDirective_none (s : String) (h : parseDirective s = (none, none)) :
    resolveDirective s = (none, none) := by
  unfold resolveDirective
  dsimp only
  rw [h]

theorem handle_nowiki_fallback (c : Collab) (x1 : Node) (tg : String)
    (a2 : List (String × String)) (rest : List Node) (dirline body lx : String)
    (hres : resolveDirective (rstrip dirline) = (none, none))
    (hlx : c.get_lexer_by_name (some "text") = some lx) :
    handle_nowiki c [x1, .elem tg a2 (.text dirline :: rest), .text body] =
      .ok [invalid_args (rstrip dirline), blockcodeFor c lx body] := by
  unfold handle_nowiki
  dsimp only [firstItemString]
  rw [hres]
  dsimp only
  rw [if_neg (by simp), if_neg (by simp), if_neg (by simp), if_neg (by simp),
      if_neg (by simp), if_neg (by simp), if_neg (by simp), if_neg (by simp)]
  rw [hlx]

/-- C7: the Directive Parser of lines 45-52 meets its contract.  First
conjunct: the source translation coincides with the specification's
formulation on ALL directive lines (sentinel plus nonempty remainder
is split at the first space into name and optional argument; otherwise
both absent); the parser is a total function, so it never signals an
error.  Second conjunct: a placeholder whose trimmed directive line
parses to (absent, absent) is routed to the unknown-format fallback
(diagnostic plus plain-text block), not to a parse error. -/
theorem C7_directive_grammar :
    (∀ s : String, parseDirective s = parseDirectiveSpec s) ∧
    (∀ (c : Collab) (x1 : Node) (tg : String) (a2 : List (String × String))
        (rest : List Node) (dirline body lx : String),
      parseDirective (rstrip dirline) = (none, none) →
      c.get_lexer_by_name (some "text") = some lx →
      handle_nowiki c [x1, .elem tg a2 (.text dirline :: rest), .text body] =
        .ok [invalid_args (rstrip dirline), blockcodeFor c lx body]) :=
  ⟨parseDirective_eq_spec,
   fun c x1 tg a2 rest dirline body lx hp hlx =>
     handle_nowiki_fallback c x1 tg a2 rest dirline body lx
       (resolveDirective_none (rstrip dirline) hp) hlx⟩

theorem C7_directive_grammar_witness :
    parseDirective (rstrip "just text") = (none, none) ∧
    handle_nowiki cDefault [.text "3", .elem "arguments" [] [.text "just text"], .text "b"] =
      .ok [invalid_args (rstrip "just text"), blockcodeFor cDefault "text" "b"] :=
  ⟨by decide,
   C7_directive_grammar.2 cDefault (.text "3") "arguments" [] [] "just text" "b" "text"
     (by decide) rfl⟩

/-- The class attribute value of a node. -/
def classOf : Node → Option String
  | .elem _ a _ => (a.find? (fun p => p.1 == "class")).map (fun p => p.2)
  | .text _ => none

/-- The text of a single-text-run table cell. -/
def cellText : Node → String
  | .elem _ _ [.text s] => s
  | _ => ""

/-- The cells of a table row, as strings. -/
def rowCellsOf : Node → List String
  | .elem _ _ cs => cs.map cellText
  | .text _ => []

/-- The header cells of a table built by the Separator/Table Builder. -/
def headerCellsOf : Node → List String
  | .elem _ _ (.elem _ _ [hrow] :: _) => rowCellsOf hrow
  | _ => []

/-- The body rows of a table built by the Separator/Table Builder. -/
def bodyRowsOf : Node → List (List String)
  | .elem _ _ [_, .elem _ _ rws] => rws.map rowCellsOf
  | _ => []

/-- The table produced for the CSV round-trip body. -/
def csvTable8 : Node :=
  build_dom_table [["1", "2"], ["3", "4"]] ["a", "b"] "moin-csv-table moin-sortable"

/-- C8: a csv placeholder with body a;b, 1;2, 3;4 (three lines, default
separator) expands to a table whose class string is
`moin-csv-table moin-sortable`, whose header row is a, b, and whose
body is exactly the rows 1,2 and 3,4 in that order, independently of
the collaborators. -/
theorem C8_csv_round_trip (c : Collab) :
    expandFuel c 10 (mkPlaceholder "#!csv" "a;b\n1;2\n3;4") =
      .ok (.elem "nowiki" [] [csvTable8]) ∧
    classOf csvTable8 = some "moin-csv-table moin-sortable" ∧
    headerCellsOf csvTable8 = ["a", "b"] ∧
    bodyRowsOf csvTable8 = [["1", "2"], ["3", "4"]] :=
  ⟨rfl, rfl, rfl, rfl⟩

/-- The table produced for the ragged CSV body. -/
def csvTable9 : Node :=
  build_dom_table [["1"]] ["a", "b"] "moin-csv-table moin-sortable"

/-- C9: a csv body whose second line has fewer separators than the
header (a;b then 1) expands without error, and the resulting body has
exactly one row with exactly one cell - no padding and no truncation -
independently of the collaborators. -/
theorem C9_ragged_csv (c : Collab) :
    isOkE (expandFuel c 10 (mkPlaceholder "#!csv" "a;b\n1")) = true ∧
    expandFuel c 10 (mkPlaceholder "#!csv" "a;b\n1") =
      .ok (.elem "nowiki" [] [csvTable9]) ∧
    headerCellsOf csvTable9 = ["a", "b"] ∧
    bodyRowsOf csvTable9 = [["1"]] :=
  ⟨rfl, rfl, rfl, rfl⟩

theorem C8_csv_round_trip_witness :
    expandFuel cDefault 10 (mkPlaceholder "#!csv" "a;b\n1;2\n3;4") =
      .ok (.elem "nowiki" [] [csvTable8]) ∧
    classOf csvTable8 = some "moin-csv-table moin-sortable" ∧
    headerCellsOf csvTable8 = ["a", "b"] ∧
    bodyRowsOf csvTable8 = [["1", "2"], ["3", "4"]] :=
  C8_csv_round_trip cDefault

theorem C9_ragged_csv_witness :
    isOkE (expandFuel cDefault 10 (mkPlaceholder "#!csv" "a;b\n1")) = true ∧
    expandFuel cDefault 10 (mkPlaceholder "#!csv" "a;b\n1") =
      .ok (.elem "nowiki" [] [csvTable9]) ∧
    headerCellsOf csvTable9 = ["a", "b"] ∧
    bodyRowsOf csvTable9 = [["1"]] :=
  C9_ragged_csv cDefault
